import Mathlib

/-
Verification of the gh-pulse event relay and assertion engine.

This file gives a shallow embedding, in Lean 4, of the parts of the
gh-pulse repository that the verified properties are about:

  * the assertion grammar and parser      (internal/assertion/parser.go)
  * the assertion evaluator of the assertion package (Assertion.Match,
    with its strict valueAtPath and stringifyScalar helpers)
  * the client-side assertion evaluator   (internal/client/client.go:
    matchesAssertions, valueAtPath, stringifyJSON)
  * the capture buffer loop and its fatal-error handling
    (readLoopCapture / RunCapture / dumpBuffer)
  * the reconnect backoff schedule        (nextBackoff and the Run loop)
  * the broadcast hub fan-out             (internal/server/hub.go)

Go strings are modelled as Lean String values; the Go standard-library
string helpers used by the source (strings.TrimSpace, strings.Split,
strings.Fields, strconv.Atoi, ...) are re-implemented below with the
same semantics on the inputs the program feeds them (ASCII text; byte
indices coincide with character indices there).  encoding/json decoding
is modelled by an executable JSON parser producing a tagged JSON value
tree, with numbers carried as their literal source text; the default
(non-UseNumber) decoding path additionally canonicalises each numeric
literal, modelling the round trip through float64 that json.Unmarshal
plus json.Marshal performs (exact for the plain decimal literals
exercised here).  regexp.Compile is modelled by a syntactic
well-formedness check (sound for the patterns exercised here: a lone
"[" is rejected exactly as regexp.Compile rejects it), and MatchString
by unanchored substring search, which is RE2 matching restricted to
literal patterns - the only ones any concrete input below uses.
-/

namespace GhPulse

/-! ## Go string primitives -/

/-- Whitespace as recognised by unicode.IsSpace on the ASCII range,
which is what strings.TrimSpace and strings.Fields use. -/
def goIsSpace (c : Char) : Bool :=
  c = ' ' || c = '\t' || c = '\n' || c = '\r' || c = '\x0b' || c = '\x0c'

def dropWhileSpace : List Char → List Char
  | [] => []
  | c :: rest => if goIsSpace c then dropWhileSpace rest else c :: rest

/-- strings.TrimSpace. -/
def goTrimSpace (s : String) : String :=
  ⟨(dropWhileSpace (dropWhileSpace s.data.reverse).reverse)⟩

/-- strings.Contains(s, "=") for the single-character needle "=". -/
def goContainsEq (s : String) : Bool :=
  s.data.any (· = '=')

/-- strings.IndexRune(s, '='): index of the first '='.  Callers below
only use it after goContainsEq returned true. -/
def idxOfEq : List Char → Nat
  | [] => 0
  | c :: rest => if c = '=' then 0 else idxOfEq rest + 1

/-- One field-splitting step of strings.Fields: current accumulated
word (reversed) plus remaining input. -/
def goFieldsAux : List Char → List Char → List String
  | acc, [] => if acc.isEmpty then [] else [⟨acc.reverse⟩]
  | acc, c :: rest =>
      if goIsSpace c then
        if acc.isEmpty then goFieldsAux [] rest
        else ⟨acc.reverse⟩ :: goFieldsAux [] rest
      else goFieldsAux (c :: acc) rest

/-- strings.Fields: the whitespace-separated words of s. -/
def goFields (s : String) : List String :=
  goFieldsAux [] s.data

/-- One splitting step of strings.Split(s, sep) for a one-character
separator: accumulates the current piece (reversed). -/
def goSplitAux (sep : Char) : List Char → List Char → List String
  | acc, [] => [⟨acc.reverse⟩]
  | acc, c :: rest =>
      if c = sep then ⟨acc.reverse⟩ :: goSplitAux sep [] rest
      else goSplitAux sep (c :: acc) rest

/-- strings.Split(s, sep) for a one-character separator; in particular
goSplit "" c = [""], as in Go. -/
def goSplit (s : String) (sep : Char) : List String :=
  goSplitAux sep [] s.data

def isDigitChar (c : Char) : Bool :=
  '0' ≤ c && c ≤ '9'

def digitVal (c : Char) : Nat :=
  c.toNat - '0'.toNat

def digitsToNat : Nat → List Char → Nat
  | acc, [] => acc
  | acc, c :: rest => digitsToNat (acc * 10 + digitVal c) rest

/-- strconv.Atoi: optional sign followed by one or more digits, nothing
else.  (Int64 overflow is not modelled; no caller below reaches it.) -/
def atoi? (s : String) : Option Int :=
  match s.data with
  | [] => none
  | '-' :: rest =>
      if rest ≠ [] ∧ rest.all isDigitChar then some (-(digitsToNat 0 rest : Int)) else none
  | '+' :: rest =>
      if rest ≠ [] ∧ rest.all isDigitChar then some (digitsToNat 0 rest : Int) else none
  | l =>
      if l.all isDigitChar then some (digitsToNat 0 l : Int) else none

/-! ## JSON value trees

Decoded JSON, as produced by encoding/json into interface\x7b\x7d:
objects, arrays, strings, numbers, booleans and null.  Numbers carry
their literal text (the json.Number view); the default float64 view is
obtained by canonicalising that literal (canonNum below). -/

inductive JVal where
  | str (s : String)
  | num (lit : String)
  | bool (b : Bool)
  | null
  | arr (xs : List JVal)
  | obj (fields : List (String × JVal))
deriving Repr

mutual
def JVal.decEq : (a b : JVal) → Decidable (a = b)
  | .str a, .str b =>
      match String.decEq a b with
      | isTrue h => isTrue (h ▸ rfl)
      | isFalse h => isFalse (fun hh => h (JVal.str.inj hh))
  | .num a, .num b =>
      match String.decEq a b with
      | isTrue h => isTrue (h ▸ rfl)
      | isFalse h => isFalse (fun hh => h (JVal.num.inj hh))
  | .bool a, .bool b =>
      match Bool.decEq a b with
      | isTrue h => isTrue (h ▸ rfl)
      | isFalse h => isFalse (fun hh => h (JVal.bool.inj hh))
  | .null, .null => isTrue rfl
  | .arr xs, .arr ys =>
      match JVal.decEqList xs ys with
      | isTrue h => isTrue (h ▸ rfl)
      | isFalse h => isFalse (fun hh => h (JVal.arr.inj hh))
  | .obj fs, .obj gs =>
      match JVal.decEqFields fs gs with
      | isTrue h => isTrue (h ▸ rfl)
      | isFalse h => isFalse (fun hh => h (JVal.obj.inj hh))
  | .str _, .num _ => isFalse (fun h => JVal.noConfusion h)
  | .str _, .bool _ => isFalse (fun h => JVal.noConfusion h)
  | .str _, .null => isFalse (fun h => JVal.noConfusion h)
  | .str _, .arr _ => isFalse (fun h => JVal.noConfusion h)
  | .str _, .obj _ => isFalse (fun h => JVal.noConfusion h)
  | .num _, .str _ => isFalse (fun h => JVal.noConfusion h)
  | .num _, .bool _ => isFalse (fun h => JVal.noConfusion h)
  | .num _, .null => isFalse (fun h => JVal.noConfusion h)
  | .num _, .arr _ => isFalse (fun h => JVal.noConfusion h)
  | .num _, .obj _ => isFalse (fun h => JVal.noConfusion h)
  | .bool _, .str _ => isFalse (fun h => JVal.noConfusion h)
  | .bool _, .num _ => isFalse (fun h => JVal.noConfusion h)
  | .bool _, .null => isFalse (fun h => JVal.noConfusion h)
  | .bool _, .arr _ => isFalse (fun h => JVal.noConfusion h)
  | .bool _, .obj _ => isFalse (fun h => JVal.noConfusion h)
  | .null, .str _ => isFalse (fun h => JVal.noConfusion h)
  | .null, .num _ => isFalse (fun h => JVal.noConfusion h)
  | .null, .bool _ => isFalse (fun h => JVal.noConfusion h)
  | .null, .arr _ => isFalse (fun h => JVal.noConfusion h)
  | .null, .obj _ => isFalse (fun h => JVal.noConfusion h)
  | .arr _, .str _ => isFalse (fun h => JVal.noConfusion h)
  | .arr _, .num _ => isFalse (fun h => JVal.noConfusion h)
  | .arr _, .bool _ => isFalse (fun h => JVal.noConfusion h)
  | .arr _, .null => isFalse (fun h => JVal.noConfusion h)
  | .arr _, .obj _ => isFalse (fun h => JVal.noConfusion h)
  | .obj _, .str _ => isFalse (fun h => JVal.noConfusion h)
  | .obj _, .num _ => isFalse (fun h => JVal.noConfusion h)
  | .obj _, .bool _ => isFalse (fun h => JVal.noConfusion h)
  | .obj _, .null => isFalse (fun h => JVal.noConfusion h)
  | .obj _, .arr _ => isFalse (fun h => JVal.noConfusion h)
def JVal.decEqList : (a b : List JVal) → Decidable (a = b)
  | [], [] => isTrue rfl
  | [], _ :: _ => isFalse (fun h => List.noConfusion h)
  | _ :: _, [] => isFalse (fun h => List.noConfusion h)
  | x :: xs, y :: ys =>
      match JVal.decEq x y with
      | isFalse h => isFalse (fun hh => h (List.head_eq_of_cons_eq hh))
      | isTrue h1 =>
          match JVal.decEqList xs ys with
          | isTrue h2 => isTrue (by rw [h1, h2])
          | isFalse h => isFalse (fun hh => h (List.tail_eq_of_cons_eq hh))
def JVal.decEqFields : (a b : List (String × JVal)) → Decidable (a = b)
  | [], [] => isTrue rfl
  | [], _ :: _ => isFalse (fun h => List.noConfusion h)
  | _ :: _, [] => isFalse (fun h => List.noConfusion h)
  | (k, v) :: xs, (k2, v2) :: ys =>
      match String.decEq k k2 with
      | isFalse h => isFalse (fun hh => h (congrArg Prod.fst (List.head_eq_of_cons_eq hh)))
      | isTrue hk =>
          match JVal.decEq v v2 with
          | isFalse h => isFalse (fun hh => h (congrArg Prod.snd (List.head_eq_of_cons_eq hh)))
          | isTrue hv =>
              match JVal.decEqFields xs ys with
              | isTrue h2 => isTrue (by rw [hk, hv, h2])
              | isFalse h => isFalse (fun hh => h (List.tail_eq_of_cons_eq hh))
end

instance : DecidableEq JVal := JVal.decEq

/-- Scalars are strings, numbers, booleans and null; objects and arrays
are non-scalar. -/
def JVal.isScalar : JVal → Bool
  | .str _ => true
  | .num _ => true
  | .bool _ => true
  | .null => true
  | .arr _ => false
  | .obj _ => false

/-- Lookup of a key in a decoded object (Go map indexing; the parser
below keeps keys unique, collapsing duplicates like a Go map). -/
def lookupField (fields : List (String × JVal)) (k : String) : Option JVal :=
  match fields with
  | [] => none
  | (k2, v) :: rest => if k2 = k then some v else lookupField rest k

/-! ## json.Marshal on decoded values -/

/-- Escape one character the way encoding/json quotes it inside a
string (default encoder, HTML-escaping on). -/
def escChar (c : Char) : List Char :=
  if c = '"' then ['\\', '"']
  else if c = '\\' then ['\\', '\\']
  else if c = '\n' then ['\\', 'n']
  else if c = '\r' then ['\\', 'r']
  else if c = '\t' then ['\\', 't']
  else if c = '<' then ['\\', 'u', '0', '0', '3', 'c']
  else if c = '>' then ['\\', 'u', '0', '0', '3', 'e']
  else if c = '&' then ['\\', 'u', '0', '0', '2', '6']
  else if c.toNat < 32 then
    ['\\', 'u', '0', '0',
     (Nat.digitChar (c.toNat / 16)), (Nat.digitChar (c.toNat % 16))]
  else [c]

def quoteStr (s : String) : String :=
  ⟨'"' :: (s.data.flatMap escChar) ++ ['"']⟩

/-- Insert an already-serialized object field keeping the list sorted
by key (json.Marshal emits map keys in sorted order). -/
def insertByKey (p : String × String) : List (String × String) → List (String × String)
  | [] => [p]
  | q :: rest => if p.1 < q.1 then p :: q :: rest else q :: insertByKey p rest

def sortByKey (l : List (String × String)) : List (String × String) :=
  l.foldr insertByKey []

def joinFieldStrs : List (String × String) → String
  | [] => ""
  | [(k, v)] => quoteStr k ++ ":" ++ v
  | (k, v) :: p :: rest => quoteStr k ++ ":" ++ v ++ "," ++ joinFieldStrs (p :: rest)

mutual
/-- json.Marshal of a decoded value.  Numbers are emitted as their
(already canonicalised, on the default decoding path) literal text;
object keys come out in sorted order as for a Go map. -/
def serializeJSON : JVal → String
  | .null => "null"
  | .bool b => if b then "true" else "false"
  | .num lit => lit
  | .str s => quoteStr s
  | .arr xs => "[" ++ serializeList xs ++ "]"
  | .obj fs => "\x7b" ++ joinFieldStrs (sortByKey (serializeFieldVals fs)) ++ "\x7d"
def serializeList : List JVal → String
  | [] => ""
  | [x] => serializeJSON x
  | x :: y :: rest => serializeJSON x ++ "," ++ serializeList (y :: rest)
def serializeFieldVals : List (String × JVal) → List (String × String)
  | [] => []
  | (k, v) :: rest => (k, serializeJSON v) :: serializeFieldVals rest
end

/-! ## Number canonicalisation (Unmarshal into float64, then Marshal)

json.Unmarshal without UseNumber turns a numeric literal into a
float64, and json.Marshal renders that float64 in its shortest
round-tripping decimal form.  For a plain decimal literal (no
exponent) of small magnitude this round trip exactly strips the
trailing zeros of the fractional part - e.g. "1.50" becomes "1.5",
"2.0" becomes "2", "100" stays "100".  canonNum models that; literals
with an exponent are outside the modelled fragment and are left
unchanged (no concrete input below uses one). -/

def stripTrailingZeros (l : List Char) : List Char :=
  (l.reverse.dropWhile (· = '0')).reverse

def canonNum (lit : String) : String :=
  if lit.data.any (fun c => c = 'e' || c = 'E') then lit
  else
    match goSplit lit '.' with
    | [intPart, fracPart] =>
        let frac := stripTrailingZeros fracPart.data
        if frac.isEmpty then intPart else intPart ++ "." ++ ⟨frac⟩
    | _ => lit

mutual
/-- Canonicalise every numeric literal in a decoded tree: the view of
the tree that the default (float64) decoding path produces. -/
def canonTree : JVal → JVal
  | .str s => .str s
  | .num lit => .num (canonNum lit)
  | .bool b => .bool b
  | .null => .null
  | .arr xs => .arr (canonList xs)
  | .obj fs => .obj (canonFields fs)
def canonList : List JVal → List JVal
  | [] => []
  | x :: xs => canonTree x :: canonList xs
def canonFields : List (String × JVal) → List (String × JVal)
  | [] => []
  | (k, v) :: fs => (k, canonTree v) :: canonFields fs
end

/-! ## JSON parsing (encoding/json Unmarshal) -/

/-- JSON whitespace, as skipped by encoding/json. -/
def jsonWs (c : Char) : Bool :=
  c = ' ' || c = '\t' || c = '\n' || c = '\r'

def skipWs : List Char → List Char
  | [] => []
  | c :: rest => if jsonWs c then skipWs rest else c :: rest

def hexVal? (c : Char) : Option Nat :=
  if '0' ≤ c ∧ c ≤ '9' then some (c.toNat - '0'.toNat)
  else if 'a' ≤ c ∧ c ≤ 'f' then some (c.toNat - 'a'.toNat + 10)
  else if 'A' ≤ c ∧ c ≤ 'F' then some (c.toNat - 'A'.toNat + 10)
  else none

/-- Parse the body of a JSON string after the opening quote; returns
the decoded characters and the input after the closing quote. -/
def pStringBody (fuel : Nat) (input : List Char) : Option (List Char × List Char) :=
  match fuel with
  | 0 => none
  | fuel + 1 =>
    match input with
    | [] => none
    | '"' :: rest => some ([], rest)
    | '\\' :: esc =>
        match esc with
        | '"' :: rest => (pStringBody fuel rest).map (fun p => ('"' :: p.1, p.2))
        | '\\' :: rest => (pStringBody fuel rest).map (fun p => ('\\' :: p.1, p.2))
        | '/' :: rest => (pStringBody fuel rest).map (fun p => ('/' :: p.1, p.2))
        | 'n' :: rest => (pStringBody fuel rest).map (fun p => ('\n' :: p.1, p.2))
        | 't' :: rest => (pStringBody fuel rest).map (fun p => ('\t' :: p.1, p.2))
        | 'r' :: rest => (pStringBody fuel rest).map (fun p => ('\r' :: p.1, p.2))
        | 'b' :: rest => (pStringBody fuel rest).map (fun p => ('\x08' :: p.1, p.2))
        | 'f' :: rest => (pStringBody fuel rest).map (fun p => ('\x0c' :: p.1, p.2))
        | 'u' :: h1 :: h2 :: h3 :: h4 :: rest =>
            match hexVal? h1, hexVal? h2, hexVal? h3, hexVal? h4 with
            | some a, some b, some c, some d =>
                let n := ((a * 16 + b) * 16 + c) * 16 + d
                if h : n.isValidChar then
                  (pStringBody fuel rest).map (fun p => (Char.ofNatAux n h :: p.1, p.2))
                else none
            | _, _, _, _ => none
        | _ => none
    | c :: rest =>
        if c.toNat < 32 then none
        else (pStringBody fuel rest).map (fun p => (c :: p.1, p.2))

def spanDigits : List Char → List Char × List Char
  | [] => ([], [])
  | c :: rest =>
      if isDigitChar c then
        let (d, r) := spanDigits rest
        (c :: d, r)
      else ([], c :: rest)

/-- Lex a JSON numeric literal (RFC 8259 grammar, as enforced by
encoding/json): optional minus, integer part without leading zeros,
optional fraction, optional exponent.  Returns the literal text. -/
def pNumberLit (input : List Char) : Option (String × List Char) :=
  let (neg, afterSign) :=
    match input with
    | '-' :: rest => (['-'], rest)
    | _ => (([] : List Char), input)
  match afterSign with
  | [] => none
  | c :: rest =>
    if c = '0' then
      let intPart := [c]
      pNumberTail neg intPart rest
    else if isDigitChar c then
      let (more, r) := spanDigits rest
      pNumberTail neg (c :: more) r
    else none
where
  pNumberTail (neg intPart : List Char) (afterInt : List Char) : Option (String × List Char) :=
    let (fracPart, afterFrac) :=
      match afterInt with
      | '.' :: d :: rest =>
          if isDigitChar d then
            let (more, r) := spanDigits rest
            ('.' :: d :: more, r)
          else ([], afterInt)
      | _ => (([] : List Char), afterInt)
    if fracPart.isEmpty ∧ afterInt ≠ afterFrac then none
    else
      match afterFrac with
      | e :: rest =>
          if e = 'e' ∨ e = 'E' then
            match rest with
            | s :: d :: r2 =>
                if (s = '+' ∨ s = '-') ∧ isDigitChar d then
                  let (more, r3) := spanDigits r2
                  some (⟨neg ++ intPart ++ fracPart ++ [e, s, d] ++ more⟩, r3)
                else if isDigitChar s then
                  let (more, r3) := spanDigits (d :: r2)
                  some (⟨neg ++ intPart ++ fracPart ++ [e, s] ++ more⟩, r3)
                else none
            | [s] =>
                if isDigitChar s then some (⟨neg ++ intPart ++ fracPart ++ [e, s]⟩, [])
                else none
            | [] => none
          else some (⟨neg ++ intPart ++ fracPart⟩, afterFrac)
      | [] => some (⟨neg ++ intPart ++ fracPart⟩, [])

/-- Replace-or-append an object member, collapsing duplicate keys the
way decoding into a Go map does (last value wins, one entry). -/
def putField (fields : List (String × JVal)) (k : String) (v : JVal) : List (String × JVal) :=
  match fields with
  | [] => [(k, v)]
  | (k2, v2) :: rest => if k2 = k then (k, v) :: rest else (k2, v2) :: putField rest k v

mutual
/-- Parse one JSON value (encoding/json grammar); fuel bounds the
nesting/step count and is always supplied ample by parseJSONNum. -/
def pValue (fuel : Nat) (input : List Char) : Option (JVal × List Char) :=
  match fuel with
  | 0 => none
  | fuel + 1 =>
    match skipWs input with
    | [] => none
    | c :: rest =>
      if c = '\x7b' then
        match skipWs rest with
        | '\x7d' :: r2 => some (.obj [], r2)
        | r2 => (pMembers fuel [] r2).map (fun p => (JVal.obj p.1, p.2))
      else if c = '[' then
        match skipWs rest with
        | ']' :: r2 => some (.arr [], r2)
        | r2 => (pElems fuel [] r2).map (fun p => (JVal.arr p.1, p.2))
      else if c = '"' then
        (pStringBody fuel rest).map (fun p => (JVal.str ⟨p.1⟩, p.2))
      else if c = 't' then
        match rest with
        | 'r' :: 'u' :: 'e' :: r2 => some (.bool true, r2)
        | _ => none
      else if c = 'f' then
        match rest with
        | 'a' :: 'l' :: 's' :: 'e' :: r2 => some (.bool false, r2)
        | _ => none
      else if c = 'n' then
        match rest with
        | 'u' :: 'l' :: 'l' :: r2 => some (.null, r2)
        | _ => none
      else if c = '-' ∨ isDigitChar c then
        (pNumberLit (c :: rest)).map (fun p => (JVal.num p.1, p.2))
      else none

/-- Parse the members of an object, starting at a key (after any
already-parsed members, accumulated with duplicate keys collapsed). -/
def pMembers (fuel : Nat) (acc : List (String × JVal)) (input : List Char) :
    Option (List (String × JVal) × List Char) :=
  match fuel with
  | 0 => none
  | fuel + 1 =>
    match skipWs input with
    | '"' :: rest =>
      match pStringBody fuel rest with
      | none => none
      | some (key, afterKey) =>
        match skipWs afterKey with
        | ':' :: afterColon =>
          match pValue fuel afterColon with
          | none => none
          | some (v, afterVal) =>
            let acc2 := putField acc ⟨key⟩ v
            match skipWs afterVal with
            | ',' :: r2 => pMembers fuel acc2 r2
            | '\x7d' :: r2 => some (acc2, r2)
            | _ => none
        | _ => none
    | _ => none

/-- Parse the elements of an array, starting at a value. -/
def pElems (fuel : Nat) (acc : List JVal) (input : List Char) :
    Option (List JVal × List Char) :=
  match fuel with
  | 0 => none
  | fuel + 1 =>
    match pValue fuel input with
    | none => none
    | some (v, afterVal) =>
      match skipWs afterVal with
      | ',' :: r2 => pElems fuel (acc ++ [v]) r2
      | ']' :: r2 => some (acc ++ [v], r2)
      | _ => none
end

/-- json.Unmarshal with decoder.UseNumber(): one JSON value, numbers
kept as literal text, and nothing but whitespace after it. -/
def parseJSONNum (s : String) : Option JVal :=
  match pValue (s.data.length + 1) s.data with
  | some (v, rest) => if (skipWs rest).isEmpty then some v else none
  | none => none

/-- Plain json.Unmarshal into interface\x7b\x7d: like parseJSONNum but
numbers go through float64 (canonicalised literals). -/
def decodeStd (s : String) : Option JVal :=
  (parseJSONNum s).map canonTree

/-! ## regexp model

regexp.Compile is modelled by a syntactic well-formedness check:
character classes must be closed, groups balanced, escapes complete.
It is sound for every pattern a concrete input below mentions (it
rejects "[", which regexp.Compile rejects with "missing closing ]",
and accepts the literal patterns used).  MatchString is modelled as
unanchored substring search, which coincides with RE2 matching for
literal patterns - the only compiled patterns any concrete input
below matches with. -/

def regexWellFormedAux : List Char → Nat → Bool → Bool
  | [], depth, inClass => depth = 0 && !inClass
  | '\\' :: rest, depth, inClass =>
      match rest with
      | [] => false
      | _ :: r2 => regexWellFormedAux r2 depth inClass
  | '[' :: rest, depth, false => regexWellFormedAux rest depth true
  | ']' :: rest, depth, true => regexWellFormedAux rest depth false
  | '(' :: rest, depth, false => regexWellFormedAux rest (depth + 1) false
  | ')' :: rest, depth, false =>
      if depth = 0 then false else regexWellFormedAux rest (depth - 1) false
  | _ :: rest, depth, inClass => regexWellFormedAux rest depth inClass

def regexWellFormed (pattern : String) : Bool :=
  regexWellFormedAux pattern.data 0 false

/-- regexp.Compile: succeeds (returning the compiled pattern, modelled
by the pattern itself) iff the pattern is well-formed. -/
def regexpCompile (pattern : String) : Option String :=
  if regexWellFormed pattern then some pattern else none

def containsSub (hay pat : List Char) : Bool :=
  hay.tails.any (fun t => pat.isPrefixOf t)

/-- Regexp.MatchString: unanchored search (literal-pattern model). -/
def reMatchString (re : String) (s : String) : Bool :=
  containsSub s.data re.data

/-! ## internal/assertion: the parser (parser.go) and the evaluator of
the assertion package (Assertion.Match with its strict valueAtPath and
stringifyScalar). -/

namespace assertion

structure Assertion where
  Path : String
  Operator : String
  Value : String
  ExitCode : Int
deriving DecidableEq, Repr

/-- ParseAssertion (internal/assertion/parser.go).  Error messages
match the Go source up to the omitted quote characters. -/
def ParseAssertion (input : String) (exitCode : Int) : Except String Assertion :=
  let trimmed := GhPulse.goTrimSpace input
  if trimmed = "" then .error "assertion cannot be empty"
  else if GhPulse.goContainsEq trimmed then
    let idx := GhPulse.idxOfEq trimmed.data
    if idx = 0 then .error "missing path before ="
    else
      let path := GhPulse.goTrimSpace ⟨trimmed.data.take idx⟩
      let value := GhPulse.goTrimSpace ⟨trimmed.data.drop (idx + 1)⟩
      if path = "" then .error "missing path before ="
      else if value = "" then .error "missing value after ="
      else if value.data.head? = some '~' then
        let pattern := GhPulse.goTrimSpace ⟨value.data.drop 1⟩
        if pattern = "" then .error "missing regex pattern after =~"
        else .ok ⟨path, "regex", pattern, exitCode⟩
      else .ok ⟨path, "eq", value, exitCode⟩
  else
    let fields := GhPulse.goFields trimmed
    if fields.length ≠ 2 ∨ fields.getD 1 "" ≠ "exists" then
      .error "expected path=value, path=~regex, or path exists"
    else if fields.getD 0 "" = "" then .error "missing path before exists"
    else .ok ⟨fields.getD 0 "", "exists", "", exitCode⟩

def ParseAssertions (inputs : List String) (exitCode : Int) : Except String (List Assertion) :=
  match inputs with
  | [] => .ok []
  | input :: rest =>
      match ParseAssertion input exitCode with
      | .error e => .error ("invalid assertion " ++ input ++ ": " ++ e)
      | .ok a =>
          match ParseAssertions rest exitCode with
          | .error e => .error e
          | .ok as_ => .ok (a :: as_)

/-- valueAtPath of the assertion package: rejects an empty path and any
empty segment, and only descends through objects. -/
def valueAtPathSegs : JVal → List String → Option JVal
  | current, [] => some current
  | current, part :: rest =>
      if part = "" then none
      else
        match current with
        | .obj fields => match GhPulse.lookupField fields part with
            | none => none
            | some child => valueAtPathSegs child rest
        | _ => none

def valueAtPath (payload : JVal) (path : String) : Option JVal :=
  if path = "" then none
  else valueAtPathSegs payload (GhPulse.goSplit path '.')

/-- stringifyScalar: strings as-is; json.Number by its literal text
(the UseNumber decoder only produces json.Number for numbers, so the
float64 arm of the source is subsumed); booleans via FormatBool; null
as "null"; objects and arrays are not stringified. -/
def stringifyScalar : JVal → Option String
  | .str s => some s
  | .num lit => some lit
  | .bool b => some (if b then "true" else "false")
  | .null => some "null"
  | _ => none

/-- Assertion.Match of the assertion package: decode with UseNumber,
resolve the path strictly, and compare stringified scalars.  A compile
failure of a regex pattern is an error here (not a silent skip). -/
def MatchDecoded (a : Assertion) (payload : JVal) : Except String Bool :=
  let r := valueAtPath payload a.Path
  if a.Operator = "exists" then .ok r.isSome
  else if a.Operator = "eq" then
    match r with
    | none => .ok false
    | some v =>
        match stringifyScalar v with
        | none => .ok false
        | some str => .ok (str = a.Value)
  else if a.Operator = "regex" then
    match r with
    | none => .ok false
    | some v =>
        match stringifyScalar v with
        | none => .ok false
        | some str =>
            match GhPulse.regexpCompile a.Value with
            | none => .error "error parsing regexp"
            | some re => .ok (GhPulse.reMatchString re str)
  else .error ("unknown operator " ++ a.Operator)

def Match (a : Assertion) (data : String) : Except String Bool :=
  match GhPulse.parseJSONNum data with
  | none => .error "invalid json"
  | some payload => MatchDecoded a payload

end assertion

/-! ## internal/client: the streaming/capture client
(internal/client/client.go; the SSE variant in src/unnamed/part_003
carries a byte-identical matchesAssertions / valueAtPath /
stringifyJSON, so this embedding covers both). -/

namespace client

/-- valueAtPath of the client: splits on dots without filtering empty
segments, descends through objects by key (including the empty key)
and through arrays by Atoi index. -/
def valueAtPathSegs : JVal → List String → Option JVal
  | current, [] => some current
  | current, part :: rest =>
      match current with
      | .obj fields =>
          match GhPulse.lookupField fields part with
          | none => none
          | some child => valueAtPathSegs child rest
      | .arr xs =>
          match GhPulse.atoi? part with
          | none => none
          | some idx =>
              if idx < 0 then none
              else
                match xs.get? idx.toNat with
                | none => none
                | some x => valueAtPathSegs x rest
      | _ => none

def valueAtPath (payload : JVal) (path : String) : Option JVal :=
  valueAtPathSegs payload (GhPulse.goSplit path '.')

/-- stringifyJSON of the client: strings as-is, every other value
(scalar or not) through json.Marshal. -/
def stringifyJSON : JVal → String
  | .str s => s
  | v => GhPulse.serializeJSON v

/-- One iteration of the assertion loop inside matchesAssertions:
exists matches any resolved value; eq compares the marshalled text;
regex compiles at match time and a compile failure falls through to
the next rule (continue). -/
def ruleMatches (payload : JVal) (rule : assertion.Assertion) : Bool :=
  match GhPulse.client.valueAtPath payload rule.Path with
  | none => false
  | some v =>
      if rule.Operator = "exists" then true
      else if rule.Operator = "eq" then stringifyJSON v = rule.Value
      else if rule.Operator = "regex" then
        match GhPulse.regexpCompile rule.Value with
        | none => false
        | some re => GhPulse.reMatchString re (stringifyJSON v)
      else false

/-- matchesAssertions (client.go): empty rule list never matches; a
message that fails json.Unmarshal never matches; otherwise the first
matching rule wins. -/
def matchesAssertions (message : String) (assertions : List assertion.Assertion) : Bool :=
  if assertions.length = 0 then false
  else
    match GhPulse.decodeStd message with
    | none => false
    | some payload => assertions.any (ruleMatches payload)

/-- The per-event exit decision of readLoop (and of the Run callback
in the SSE client): success assertions first (exit 0), then failure
assertions (exit 1), else keep running. -/
def readLoopDecide (message : String)
    (successAssertions failureAssertions : List assertion.Assertion) : Option Int :=
  if matchesAssertions message successAssertions then some 0
  else if matchesAssertions message failureAssertions then some 1
  else none

/-! ### Capture mode -/

def warnBufferBytes : Nat := 100 * 1024 * 1024
def maxBufferBytes : Nat := 500 * 1024 * 1024

structure CaptureState where
  buffer : List String
  bufferBytes : Nat
  warned : Bool
deriving DecidableEq, Repr

def initCapture : CaptureState := ⟨[], 0, false⟩

inductive CaptureOutcome where
  | fatal
  | exit (code : Int)
  | running
deriving DecidableEq, Repr

/-- The read loop of readLoopCapture, processing incoming messages in
order: append to the buffer and count bytes, warn once at the warn
threshold, stop fatally at the hard limit, otherwise evaluate the
assertions (success before failure). -/
def captureLoop (successAssertions failureAssertions : List assertion.Assertion) :
    CaptureState → List String → CaptureState × CaptureOutcome
  | st, [] => (st, .running)
  | st, message :: rest =>
      let buffer := st.buffer ++ [message]
      let bufferBytes := st.bufferBytes + message.length
      let warned := st.warned || decide (warnBufferBytes ≤ bufferBytes)
      let st2 : CaptureState := ⟨buffer, bufferBytes, warned⟩
      if maxBufferBytes ≤ bufferBytes then (st2, .fatal)
      else if matchesAssertions message successAssertions then (st2, .exit 0)
      else if matchesAssertions message failureAssertions then (st2, .exit 1)
      else captureLoop successAssertions failureAssertions st2 rest

inductive RunErr where
  | exitErr (code : Int)
  | fatalErr
deriving DecidableEq, Repr

/-- The error handling of RunCapture once the capture loop has ended:
an exit-coded error flushes the buffer through dumpBuffer and is then
returned; the fatal buffer error is returned directly, without any
flush.  The first component is the list of lines flushed to stdout. -/
def handleCaptureOutcome (buffer : List String) :
    CaptureOutcome → List String × Option RunErr
  | .exit code => (buffer, some (.exitErr code))
  | .fatal => ([], some .fatalErr)
  | .running => ([], none)

/-- RunCapture on a finite incoming message sequence, up to the point
where the capture loop ends: the flushed lines and the returned
error. -/
def runCaptureModel (successAssertions failureAssertions : List assertion.Assertion)
    (messages : List String) : List String × Option RunErr :=
  let (st, outcome) := captureLoop successAssertions failureAssertions initCapture messages
  handleCaptureOutcome st.buffer outcome

/-! ### Reconnect backoff -/

/-- One time unit (time.Second) in nanoseconds. -/
def second : Nat := 1000000000

/-- nextBackoff (client.go and sse/client.go are identical): double,
capped at 30 time units. -/
def nextBackoff (current : Nat) : Nat :=
  let next := current * 2
  if 30 * second < next then 30 * second else next

/-- One observable iteration of the Run connect loop: a dial failure
waits the current backoff then doubles it; a connected iteration
resets the backoff to one time unit first, then either fails the
subscribe handshake (waiting the reset backoff and doubling it) or
enters the read loop and eventually disconnects without waiting. -/
inductive LoopIter where
  | dialFail
  | dialOKsubFail
  | dialOKread
deriving DecidableEq, Repr

def stepBackoff (b : Nat) : LoopIter → Nat × Option Nat
  | .dialFail => (nextBackoff b, some b)
  | .dialOKsubFail => (nextBackoff second, some second)
  | .dialOKread => (second, none)

/-- Fold the connect loop over a trace of iterations, collecting the
backoff waits actually performed, in order. -/
def runTrace (b : Nat) : List LoopIter → Nat × List Nat
  | [] => (b, [])
  | it :: rest =>
      let s := stepBackoff b it
      let r := runTrace s.1 rest
      (r.1, s.2.toList ++ r.2)

end client

/-! ## internal/server: the broadcast hub (hub.go) -/

namespace server

/-- A registered hub subscriber: its current filter (events), its
bounded outbound queue (send, a buffered channel of capacity cap; the
server creates every client with capacity 16), and an identity (the
Go map key is the client pointer). -/
structure HClient where
  id : Nat
  events : List String
  send : List String
  cap : Nat
deriving DecidableEq, Repr

/-- Client.subscribedTo: an empty filter accepts every category,
otherwise only the listed ones. -/
def subscribedTo (c : HClient) (event : String) : Bool :=
  c.events.length = 0 || c.events.contains event

/-- Client creation as in the /ws handler: empty filter, empty queue
of capacity 16. -/
def mkClient (id : Nat) (events : List String) : HClient :=
  ⟨id, events, [], 16⟩

/-- The fate of one subscriber during a broadcast: not subscribed -
left untouched; subscribed with queue space - the event is enqueued
(non-blocking send succeeds); subscribed with a full queue - the
default branch evicts the subscriber (entry deleted, queue closed). -/
def deliverTo (event : String) (data : String) (c : HClient) : Option HClient :=
  if subscribedTo c event then
    if c.send.length < c.cap then some { c with send := c.send ++ [data] }
    else none
  else some c

/-- The broadcast arm of Hub.run: every active subscriber is offered
the event; evicted subscribers disappear from the active set. -/
def hubBroadcast (clients : List HClient) (event : String) (data : String) :
    List HClient :=
  clients.filterMap (deliverTo event data)

end server

/-- A concrete 500 MiB capture-mode message (exactly maxBufferBytes
bytes of payload), used to exercise the hard buffer limit. -/
def bigMsg : String := ⟨List.replicate 524288000 'a'⟩

/-! ## Helper lemmas -/

theorem deliverTo_id {event data : String} {c c2 : server.HClient}
    (h : server.deliverTo event data c = some c2) : c2.id = c.id := by
  unfold server.deliverTo at h
  split at h
  · split at h
    · cases h; rfl
    · cases h
  · cases h; rfl

theorem subscribedTo_of_empty {c : server.HClient} (h : c.events = []) (event : String) :
    server.subscribedTo c event = true := by
  simp [server.subscribedTo, h]

theorem subscribedTo_of_mem {c : server.HClient} {event : String} (h : event ∈ c.events) :
    server.subscribedTo c event = true := by
  simp [server.subscribedTo, h]

theorem subscribedTo_eq_false {c : server.HClient} {event : String}
    (hne : c.events ≠ []) (hnm : event ∉ c.events) :
    server.subscribedTo c event = false := by
  simp [server.subscribedTo, hnm]
  intro h
  exact absurd h hne

theorem deliverTo_of_space {event data : String} {c : server.HClient}
    (hsub : server.subscribedTo c event = true) (hspace : c.send.length < c.cap) :
    server.deliverTo event data c = some { c with send := c.send ++ [data] } := by
  simp [server.deliverTo, hsub, hspace]

theorem deliverTo_of_full {event data : String} {c : server.HClient}
    (hsub : server.subscribedTo c event = true) (hfull : c.cap ≤ c.send.length) :
    server.deliverTo event data c = none := by
  simp [server.deliverTo, hsub, Nat.not_lt.mpr hfull]

theorem deliverTo_of_not_subscribed {event data : String} {c : server.HClient}
    (hsub : server.subscribedTo c event = false) :
    server.deliverTo event data c = some c := by
  simp [server.deliverTo, hsub]

/-- C4: an event of category X broadcast through the hub reaches every
registered subscriber whose filter is empty or mentions X (given queue
space), and no subscriber whose non-empty filter excludes X receives
it: that subscriber survives the broadcast with its queue unchanged,
and no entry with its identity in the new active set differs from it. -/
theorem c4_hub_filter_semantics
    (clients : List server.HClient) (event data : String)
    (c : server.HClient) (hc : c ∈ clients) :
    (c.events = [] → c.send.length < c.cap →
      { c with send := c.send ++ [data] } ∈ server.hubBroadcast clients event data)
    ∧ (event ∈ c.events → c.send.length < c.cap →
      { c with send := c.send ++ [data] } ∈ server.hubBroadcast clients event data)
    ∧ ((clients.map server.HClient.id).Nodup → c.events ≠ [] → event ∉ c.events →
      c ∈ server.hubBroadcast clients event data ∧
        ∀ c2 ∈ server.hubBroadcast clients event data, c2.id = c.id → c2 = c) := by
  refine ⟨?_, ?_, ?_⟩
  · intro hev hspace
    exact List.mem_filterMap.mpr
      ⟨c, hc, deliverTo_of_space (subscribedTo_of_empty hev event) hspace⟩
  · intro hev hspace
    exact List.mem_filterMap.mpr
      ⟨c, hc, deliverTo_of_space (subscribedTo_of_mem hev) hspace⟩
  · intro hnd hne hnm
    have hdel : server.deliverTo event data c = some c :=
      deliverTo_of_not_subscribed (subscribedTo_eq_false hne hnm)
    refine ⟨List.mem_filterMap.mpr ⟨c, hc, hdel⟩, ?_⟩
    intro c2 hc2 hid
    obtain ⟨a, ha, hda⟩ := List.mem_filterMap.mp hc2
    have haid : a.id = c.id := (deliverTo_id hda).symm.trans hid
    have hac : a = c := List.inj_on_of_nodup_map hnd ha hc haid
    rw [hac] at hda
    rw [hdel] at hda
    exact (Option.some_injective _ hda).symm

/-- C4 witness: a three-subscriber hub (empty filter, filter containing
the category, filter excluding it) on one concrete broadcast. -/
theorem c4_hub_filter_semantics_witness :
    (server.mkClient 0 []).send.length < (server.mkClient 0 []).cap
    ∧ { server.mkClient 0 [] with send := ["d"] }
        ∈ server.hubBroadcast
            [server.mkClient 0 [], server.mkClient 1 ["push"], server.mkClient 2 ["issues"]]
            "push" "d"
    ∧ { server.mkClient 1 ["push"] with send := ["d"] }
        ∈ server.hubBroadcast
            [server.mkClient 0 [], server.mkClient 1 ["push"], server.mkClient 2 ["issues"]]
            "push" "d"
    ∧ server.mkClient 2 ["issues"]
        ∈ server.hubBroadcast
            [server.mkClient 0 [], server.mkClient 1 ["push"], server.mkClient 2 ["issues"]]
            "push" "d" := by
  refine ⟨by decide, ?_, ?_, ?_⟩
  · exact (c4_hub_filter_semantics
      [server.mkClient 0 [], server.mkClient 1 ["push"], server.mkClient 2 ["issues"]]
      "push" "d" (server.mkClient 0 []) (by simp)).1 rfl (by decide)
  · exact (c4_hub_filter_semantics
      [server.mkClient 0 [], server.mkClient 1 ["push"], server.mkClient 2 ["issues"]]
      "push" "d" (server.mkClient 1 ["push"]) (by simp)).2.1 (by decide) (by decide)
  · exact ((c4_hub_filter_semantics
      [server.mkClient 0 [], server.mkClient 1 ["push"], server.mkClient 2 ["issues"]]
      "push" "d" (server.mkClient 2 ["issues"]) (by simp)).2.2 (by decide) (by decide)
      (by decide)).1

/-- C5: a broadcast that finds a matching subscriber with a full
outbound queue evicts that subscriber (no entry with its identity is
in the new active set), while every other matching subscriber with
queue space still receives the event in the same broadcast step. -/
theorem c5_full_queue_evicted
    (clients : List server.HClient) (event data : String) (c : server.HClient)
    (hnd : (clients.map server.HClient.id).Nodup)
    (hc : c ∈ clients) (hsub : server.subscribedTo c event = true)
    (hfull : c.cap ≤ c.send.length) :
    (∀ c2 ∈ server.hubBroadcast clients event data, c2.id ≠ c.id)
    ∧ ∀ c2 ∈ clients, c2.id ≠ c.id → server.subscribedTo c2 event = true →
        c2.send.length < c2.cap →
        { c2 with send := c2.send ++ [data] } ∈ server.hubBroadcast clients event data := by
  constructor
  · intro c2 hc2 hid
    obtain ⟨a, ha, hda⟩ := List.mem_filterMap.mp hc2
    have haid : a.id = c.id := by rw [deliverTo_id hda] at hid; exact hid
    have hac : a = c := List.inj_on_of_nodup_map hnd ha hc haid
    rw [hac, deliverTo_of_full hsub hfull] at hda
    cases hda
  · intro c2 hc2 _ hsub2 hspace2
    exact List.mem_filterMap.mpr ⟨c2, hc2, deliverTo_of_space hsub2 hspace2⟩

/-- C5 witness: a full subscriber (16 queued messages) is evicted while
an empty-queue subscriber still receives the event. -/
theorem c5_full_queue_evicted_witness :
    server.hubBroadcast
        [⟨0, [], List.replicate 16 "m", 16⟩, server.mkClient 1 []] "push" "d"
      = [{ server.mkClient 1 [] with send := ["d"] }]
    ∧ { server.mkClient 1 [] with send := ["d"] }
        ∈ server.hubBroadcast
            [⟨0, [], List.replicate 16 "m", 16⟩, server.mkClient 1 []] "push" "d" := by
  have h := c5_full_queue_evicted
    [⟨0, [], List.replicate 16 "m", 16⟩, server.mkClient 1 []] "push" "d"
    ⟨0, [], List.replicate 16 "m", 16⟩ (by decide) (by simp) (by decide) (by decide)
  exact ⟨by decide,
    h.2 (server.mkClient 1 []) (by simp) (by decide) (by decide) (by decide)⟩

theorem matchesAssertions_eq_any {message : String} {payload : JVal}
    (hdec : decodeStd message = some payload)
    {assertions : List assertion.Assertion} (hne : assertions ≠ []) :
    client.matchesAssertions message assertions
      = assertions.any (client.ruleMatches payload) := by
  unfold client.matchesAssertions
  rw [hdec]
  simp [List.length_eq_zero, hne]

/-- C3: per incoming event the success assertion list is evaluated
before the failure list: if some success assertion matches, the exit
decision is the success exit with code 0, even if failure assertions
also match; a matching failure assertion yields the failure exit with
code 1 only when no success assertion matched. -/
theorem c3_success_checked_first
    (message : String) (payload : JVal)
    (successAssertions failureAssertions : List assertion.Assertion)
    (hdec : decodeStd message = some payload) :
    (∀ rule ∈ successAssertions, client.ruleMatches payload rule = true →
        client.readLoopDecide message successAssertions failureAssertions = some 0)
    ∧ ((∀ rule ∈ successAssertions, client.ruleMatches payload rule = false) →
        ∀ rule ∈ failureAssertions, client.ruleMatches payload rule = true →
          client.readLoopDecide message successAssertions failureAssertions = some 1) := by
  constructor
  · intro rule hmem hmatch
    have hne : successAssertions ≠ [] := by
      intro h; rw [h] at hmem; cases hmem
    have hsucc : client.matchesAssertions message successAssertions = true := by
      rw [matchesAssertions_eq_any hdec hne]
      exact List.any_eq_true.mpr ⟨rule, hmem, hmatch⟩
    simp [client.readLoopDecide, hsucc]
  · intro hnone rule hmem hmatch
    have hne : failureAssertions ≠ [] := by
      intro h; rw [h] at hmem; cases hmem
    have hsucc : client.matchesAssertions message successAssertions = false := by
      unfold client.matchesAssertions
      rw [hdec]
      split
      · rfl
      · simp only [List.any_eq_false]
        intro a ha
        simp [hnone a ha]
    have hfail : client.matchesAssertions message failureAssertions = true := by
      rw [matchesAssertions_eq_any hdec hne]
      exact List.any_eq_true.mpr ⟨rule, hmem, hmatch⟩
    simp [client.readLoopDecide, hsucc, hfail]

/-- C3 witness: an event matched by both a success rule and an
identical failure rule exits with the success code 0. -/
theorem c3_success_checked_first_witness :
    client.readLoopDecide "\x7b\"a\":\"x\"\x7d"
      [⟨"a", "eq", "x", 0⟩] [⟨"a", "eq", "x", 1⟩] = some 0 :=
  (c3_success_checked_first "\x7b\"a\":\"x\"\x7d" (.obj [("a", .str "x")])
      [⟨"a", "eq", "x", 0⟩] [⟨"a", "eq", "x", 1⟩] (by decide)).1
    ⟨"a", "eq", "x", 0⟩ (by simp) (by decide)

/-- C10: a message that is not valid JSON never matches any assertion
list, so it can never drive a success or failure exit: the read-loop
decision on it is always to keep running. -/
theorem c10_malformed_never_matches
    (message : String) (h : parseJSONNum message = none) :
    (∀ assertions, client.matchesAssertions message assertions = false)
    ∧ ∀ successAssertions failureAssertions,
        client.readLoopDecide message successAssertions failureAssertions = none := by
  have hdec : decodeStd message = none := by
    unfold decodeStd
    rw [h]
    rfl
  have hm : ∀ assertions, client.matchesAssertions message assertions = false := by
    intro assertions
    unfold client.matchesAssertions
    rw [hdec]
    split <;> rfl
  exact ⟨hm, fun s f => by simp [client.readLoopDecide, hm]⟩

/-- C10 witness: a concrete malformed message matches nothing and
keeps the session running, despite an assertion that would otherwise
match everything. -/
theorem c10_malformed_never_matches_witness :
    client.matchesAssertions "\x7binvalid" [⟨"type", "exists", "", 0⟩] = false
    ∧ client.readLoopDecide "\x7binvalid"
        [⟨"type", "exists", "", 0⟩] [⟨"type", "exists", "", 1⟩] = none :=
  ⟨(c10_malformed_never_matches "\x7binvalid" (by decide)).1 [⟨"type", "exists", "", 0⟩],
   (c10_malformed_never_matches "\x7binvalid" (by decide)).2
      [⟨"type", "exists", "", 0⟩] [⟨"type", "exists", "", 1⟩]⟩

/-- C2 counterexample: the pattern "[" is not a valid regular
expression (regexp.Compile rejects it: missing closing bracket, which
the regex model mirrors), yet ParseAssertion accepts "a=~[" and
returns the regex assertion untouched - parsing does not fail and no
pattern compilation happens at configuration time. -/
theorem c2_parse_accepts_invalid_regex :
    assertion.ParseAssertion "a=~[" 0 = .ok ⟨"a", "regex", "[", 0⟩
    ∧ regexWellFormed "[" = false :=
  ⟨rfl, by decide⟩

/-- C2 amended: the regex pattern of a path=~pattern assertion is not
compiled at parse time - ParseAssertion stores it verbatim, accepting
even an invalid pattern such as "[" - and compilation happens only
during matching, where a pattern that fails to compile makes the rule
silently contribute no match (the loop continues), with no
user-facing error. -/
theorem c2_regex_compiled_lazily :
    (assertion.ParseAssertion "a=~[" 0 = .ok ⟨"a", "regex", "[", 0⟩)
    ∧ ∀ (rule : assertion.Assertion) (payload : JVal),
        rule.Operator = "regex" → regexWellFormed rule.Value = false →
        client.ruleMatches payload rule = false := by
  refine ⟨rfl, ?_⟩
  intro rule payload hop hbad
  unfold client.ruleMatches
  split
  · rfl
  · rw [hop]
    simp [regexpCompile, hbad]

/-- C2 witness: the invalid-pattern rule parsed above never matches a
payload on which its path resolves. -/
theorem c2_regex_compiled_lazily_witness :
    client.ruleMatches (.obj [("a", .str "y")]) ⟨"a", "regex", "[", 0⟩ = false :=
  c2_regex_compiled_lazily.2 ⟨"a", "regex", "[", 0⟩ (.obj [("a", .str "y")]) rfl (by decide)

theorem stringifyScalar_eq_none {v : JVal} (h : v.isScalar = false) :
    assertion.stringifyScalar v = none := by
  cases v <;> simp_all [JVal.isScalar, assertion.stringifyScalar]

theorem stringifyJSON_of_nonscalar {v : JVal} (h : v.isScalar = false) :
    client.stringifyJSON v = serializeJSON v := by
  cases v <;> simp_all [JVal.isScalar, client.stringifyJSON]

/-- C6 counterexample: in the client matcher an equals assertion on a
path whose value is a non-scalar (here the empty array) does match
when the rule value equals the JSON serialization of that non-scalar,
and a regex assertion on a path whose value is an object does match
when the pattern finds a substring of that serialization - the
non-scalar is not treated as "not found" by either operator. -/
theorem c6_nonscalar_matches_eq :
    client.matchesAssertions "\x7b\"x\":[]\x7d" [⟨"x", "eq", "[]", 0⟩] = true
    ∧ client.matchesAssertions "\x7b\"x\":\x7b\"a\":1\x7d\x7d"
        [⟨"x", "regex", "a", 1⟩] = true := by
  constructor <;> decide

/-- C6 amended: only Assertion.Match of the assertion package rejects
non-scalars under eq/regex (reporting no match); the client-side
matchesAssertions instead stringifies a non-scalar to its JSON
serialization, so its equals (and regex) comparison runs on that text
and can be satisfied by an object or array. -/
theorem c6_nonscalar_split
    (a : assertion.Assertion) (payload v : JVal) :
    ((a.Operator = "eq" ∨ a.Operator = "regex") →
      assertion.valueAtPath payload a.Path = some v → v.isScalar = false →
      assertion.MatchDecoded a payload = .ok false)
    ∧ (a.Operator = "eq" →
      client.valueAtPath payload a.Path = some v → v.isScalar = false →
      client.ruleMatches payload a = decide (serializeJSON v = a.Value))
    ∧ (a.Operator = "regex" →
      client.valueAtPath payload a.Path = some v → v.isScalar = false →
      client.ruleMatches payload a
        = (match regexpCompile a.Value with
           | none => false
           | some re => reMatchString re (serializeJSON v))) := by
  refine ⟨?_, ?_, ?_⟩
  · intro hop hval hscal
    unfold assertion.MatchDecoded
    rcases hop with hop | hop <;>
      rw [hop] <;> simp [hval, stringifyScalar_eq_none hscal]
  · intro hop hval hscal
    unfold client.ruleMatches
    rw [hval, hop]
    simp [stringifyJSON_of_nonscalar hscal]
  · intro hop hval hscal
    unfold client.ruleMatches
    rw [hval, hop]
    simp [stringifyJSON_of_nonscalar hscal]

/-- C6 witness: all three halves at concrete non-scalar values: the
assertion package reports no match on the empty array, the client
matcher reduces its equals comparison to the serialization "[]", and
its regex comparison to an unanchored search over the serialization of
the object value. -/
theorem c6_nonscalar_split_witness :
    assertion.MatchDecoded ⟨"x", "eq", "[]", 0⟩ (.obj [("x", .arr [])]) = .ok false
    ∧ client.ruleMatches (.obj [("x", .arr [])]) ⟨"x", "eq", "[]", 0⟩
        = decide (serializeJSON (.arr []) = "[]")
    ∧ client.ruleMatches (.obj [("x", .obj [("a", .num "1")])]) ⟨"x", "regex", "a", 1⟩
        = (match regexpCompile "a" with
           | none => false
           | some re => reMatchString re (serializeJSON (.obj [("a", .num "1")]))) :=
  ⟨(c6_nonscalar_split ⟨"x", "eq", "[]", 0⟩ (.obj [("x", .arr [])]) (.arr [])).1
      (Or.inl rfl) (by decide) (by decide),
   (c6_nonscalar_split ⟨"x", "eq", "[]", 0⟩ (.obj [("x", .arr [])]) (.arr [])).2.1
      rfl (by decide) (by decide),
   (c6_nonscalar_split ⟨"x", "regex", "a", 1⟩ (.obj [("x", .obj [("a", .num "1")])])
      (.obj [("a", .num "1")])).2.2 rfl (by decide) (by decide)⟩

theorem assertion_valueAtPathSegs_empty_seg
    (payload : JVal) (segs : List String) (h : "" ∈ segs) :
    assertion.valueAtPathSegs payload segs = none := by
  induction segs generalizing payload with
  | nil => cases h
  | cons part rest ih =>
      unfold assertion.valueAtPathSegs
      rcases List.mem_cons.mp h with heq | hmem
      · simp [heq.symm]
      · split
        · rfl
        · cases payload <;> simp only []
          case obj fields =>
            cases lookupField fields part <;> simp [ih _ hmem]

/-- C7 counterexample: the client-side valueAtPath does not treat an
empty path as "not found": on the parsed tree of the valid document
with an empty-string key, resolving the empty path finds that key's
value. -/
theorem c7_empty_path_resolves :
    decodeStd "\x7b\"\":5\x7d" = some (.obj [("", .num "5")])
    ∧ client.valueAtPath (.obj [("", .num "5")]) "" = some (.num "5") :=
  ⟨by decide, by decide⟩

/-- C7 amended: the assertion package's valueAtPath reports not-found
for an empty path and for every path with an empty segment (leading,
trailing or consecutive dots), on every tree; the client-side
valueAtPath instead treats each empty segment as an ordinary
empty-string key lookup, so an empty path reports not-found only when
the root is not an object carrying an empty-string key. -/
theorem c7_empty_segments_split :
    (∀ (payload : JVal) (path : String), "" ∈ goSplit path '.' →
        assertion.valueAtPath payload path = none)
    ∧ ∀ payload : JVal,
        client.valueAtPath payload ""
          = (match payload with
             | .obj fields => lookupField fields ""
             | _ => none) := by
  constructor
  · intro payload path h
    unfold assertion.valueAtPath
    split
    · rfl
    · exact assertion_valueAtPathSegs_empty_seg payload _ h
  · intro payload
    cases payload with
    | obj fields =>
        show client.valueAtPathSegs (JVal.obj fields) [""] = lookupField fields ""
        unfold client.valueAtPathSegs
        cases h : lookupField fields "" <;> simp [h, client.valueAtPathSegs]
    | str s => rfl
    | num lit => rfl
    | bool b => rfl
    | null => rfl
    | arr xs => rfl

/-- C7 witness: a leading-dot path reports not-found in the assertion
package even though the suffix key exists; the client resolves the
empty path on a non-object to not-found. -/
theorem c7_empty_segments_split_witness :
    assertion.valueAtPath (.obj [("a", .num "1")]) ".a" = none
    ∧ client.valueAtPath (.num "7") "" = none :=
  ⟨c7_empty_segments_split.1 (.obj [("a", .num "1")]) ".a" (by decide),
   c7_empty_segments_split.2 (.num "7")⟩

/-- C8 counterexample: through the client matcher a payload value
written 1.50 does not match the rule value 1.50 - the number is
decoded to float64 and re-marshalled as "1.5", which is what the
equals comparison sees. -/
theorem c8_literal_text_lost :
    client.matchesAssertions "\x7b\"x\":1.50\x7d" [⟨"x", "eq", "1.50", 0⟩] = false
    ∧ client.matchesAssertions "\x7b\"x\":1.50\x7d" [⟨"x", "eq", "1.5", 0⟩] = true := by
  constructor <;> decide

/-- C8 amended: only Assertion.Match of the assertion package decodes
with UseNumber and so preserves the literal numeric text (1.50 matches
"1.50" there, and stringifyScalar returns any number's literal
verbatim); the client matcher decodes numbers through float64, so the
stringified form is the canonical "1.5" and the rule value 1.50 does
not match. -/
theorem c8_literal_text_split :
    (∀ lit : String, assertion.stringifyScalar (.num lit) = some lit)
    ∧ assertion.Match ⟨"x", "eq", "1.50", 0⟩ "\x7b\"x\":1.50\x7d" = .ok true
    ∧ decodeStd "\x7b\"x\":1.50\x7d" = some (.obj [("x", .num "1.5")])
    ∧ client.matchesAssertions "\x7b\"x\":1.50\x7d" [⟨"x", "eq", "1.50", 0⟩] = false :=
  ⟨fun lit => rfl, rfl, by decide, by decide⟩

theorem runTrace_append (b : Nat) (t u : List client.LoopIter) :
    client.runTrace b (t ++ u)
      = ((client.runTrace (client.runTrace b t).1 u).1,
         (client.runTrace b t).2 ++ (client.runTrace (client.runTrace b t).1 u).2) := by
  induction t generalizing b with
  | nil => simp [client.runTrace]
  | cons it rest ih => simp [client.runTrace, ih]

theorem nextBackoff_min (m : Nat) :
    client.nextBackoff (min m 30 * client.second) = min (2 * m) 30 * client.second := by
  simp only [client.nextBackoff, client.second]
  split_ifs <;> omega

theorem runTrace_failRun (k : Nat) :
    client.runTrace client.second (List.replicate k .dialFail)
      = (min (2 ^ k) 30 * client.second,
         (List.range k).map (fun i => min (2 ^ i) 30 * client.second)) := by
  induction k with
  | zero => simp [client.runTrace]
  | succ k ih =>
      rw [List.replicate_succ', runTrace_append, ih, List.range_succ]
      have hstep : client.runTrace (min (2 ^ k) 30 * client.second) [.dialFail]
          = (client.nextBackoff (min (2 ^ k) 30 * client.second),
             [min (2 ^ k) 30 * client.second]) := by
        simp [client.runTrace, client.stepBackoff]
      rw [hstep, nextBackoff_min]
      simp [pow_succ, Nat.mul_comm]

/-- C9: within the connect loop, after any successfully connected
iteration the backoff is reset, so a following run of k consecutive
dial failures waits min(2 to the power (i), 30) time units before the
(i+1)-th retry - the sequence 1, 2, 4, 8, 16, 30, 30, ... - appended
to whatever waits the earlier trace produced; and the backoff variable
immediately after the successful iteration is one time unit. -/
theorem c9_backoff_schedule
    (b : Nat) (t : List client.LoopIter) (k : Nat) :
    (client.runTrace b (t ++ .dialOKread :: List.replicate k .dialFail)).2
      = (client.runTrace b t).2
        ++ (List.range k).map (fun i => min (2 ^ i) 30 * client.second)
    ∧ (client.runTrace b (t ++ [.dialOKread])).1 = client.second := by
  constructor
  · rw [runTrace_append]
    have : client.runTrace (client.runTrace b t).1
        (.dialOKread :: List.replicate k .dialFail)
        = ((client.runTrace client.second (List.replicate k .dialFail)).1,
           (client.runTrace client.second (List.replicate k .dialFail)).2) := by
      simp [client.runTrace, client.stepBackoff]
    rw [this, runTrace_failRun]
  · rw [runTrace_append]
    simp [client.runTrace, client.stepBackoff]

/-! ## C1: the capture-buffer hard limit

The message below is 524288000 bytes long, equal to maxBufferBytes
(500 MiB), so appending it pushes the running byte total to the hard
limit in one step. -/

theorem strLen_mk (l : List Char) : (⟨l⟩ : String).length = l.length := rfl

theorem bigMsg_length : bigMsg.length = 524288000 := by
  rw [bigMsg, strLen_mk, List.length_replicate]

theorem captureLoop_fatal_step
    (successAssertions failureAssertions : List assertion.Assertion)
    (st : client.CaptureState) (m : String) (rest : List String)
    (hmax : client.maxBufferBytes ≤ st.bufferBytes + m.length) :
    client.captureLoop successAssertions failureAssertions st (m :: rest)
      = (⟨st.buffer ++ [m], st.bufferBytes + m.length,
          st.warned || decide (client.warnBufferBytes ≤ st.bufferBytes + m.length)⟩,
         .fatal) := by
  unfold client.captureLoop
  simp [hmax]

theorem runCaptureModel_eq (succ fail : List assertion.Assertion) (msgs : List String) :
    client.runCaptureModel succ fail msgs
      = client.handleCaptureOutcome
          (client.captureLoop succ fail client.initCapture msgs).1.buffer
          (client.captureLoop succ fail client.initCapture msgs).2 := by
  unfold client.runCaptureModel
  rcases client.captureLoop succ fail client.initCapture msgs with ⟨st, outcome⟩
  rfl

/-- The capture loop on the single 500 MiB message: it ends fatally
with the message buffered and the warning threshold crossed. -/
theorem captureLoop_bigMsg :
    client.captureLoop [] [] client.initCapture [bigMsg]
      = (⟨[bigMsg], 524288000, true⟩, .fatal) := by
  have hmax : client.maxBufferBytes ≤ client.initCapture.bufferBytes + bigMsg.length := by
    rw [bigMsg_length]
    show client.maxBufferBytes ≤ 0 + 524288000
    norm_num [client.maxBufferBytes]
  have hloop := captureLoop_fatal_step [] [] client.initCapture bigMsg [] hmax
  rw [bigMsg_length] at hloop
  have hwarn : (decide (client.warnBufferBytes ≤ client.initCapture.bufferBytes + 524288000))
      = true := by
    rw [decide_eq_true_eq]
    show client.warnBufferBytes ≤ 0 + 524288000
    norm_num [client.warnBufferBytes]
  rw [hwarn] at hloop
  rw [hloop]
  norm_num [client.initCapture]

/-- C1 at the failing input: one 500 MiB message arrives in capture
mode (no assertions).  The capture loop ends fatally with the message
buffered, yet RunCapture flushes nothing - the fatal error is returned
without the buffered event ever reaching the output sink, contradicting
the specified flush-then-report behaviour (dumpBuffer runs only for
exit-coded outcomes: assertion match or timeout). -/
theorem c1_fatal_skips_flush :
    client.captureLoop [] [] client.initCapture [bigMsg]
      = (⟨[bigMsg], 524288000, true⟩, .fatal)
    ∧ client.runCaptureModel [] [] [bigMsg] = ([], some .fatalErr) := by
  refine ⟨captureLoop_bigMsg, ?_⟩
  rw [runCaptureModel_eq, captureLoop_bigMsg]
  rfl

/-- C1 general form: whenever the capture loop ends with the fatal
buffer condition, the buffer is non-empty (at least the message that
crossed the limit is in it) and yet the RunCapture error handling
flushes no lines and returns the fatal error. -/
theorem c1_fatal_flushes_nothing
    (successAssertions failureAssertions : List assertion.Assertion)
    (st : client.CaptureState) (messages : List String) (stEnd : client.CaptureState)
    (h : client.captureLoop successAssertions failureAssertions st messages
          = (stEnd, .fatal)) :
    stEnd.buffer ≠ []
    ∧ client.handleCaptureOutcome stEnd.buffer .fatal = ([], some .fatalErr) := by
  refine ⟨?_, rfl⟩
  induction messages generalizing st with
  | nil =>
      unfold client.captureLoop at h
      cases h
  | cons m rest ih =>
      unfold client.captureLoop at h
      by_cases hmax : client.maxBufferBytes ≤ st.bufferBytes + m.length
      · rw [if_pos hmax] at h
        cases h
        simp
      · rw [if_neg hmax] at h
        by_cases hs : client.matchesAssertions m successAssertions = true
        · rw [if_pos hs] at h
          simp at h
        · rw [if_neg hs] at h
          by_cases hf : client.matchesAssertions m failureAssertions = true
          · rw [if_pos hf] at h
            simp at h
          · rw [if_neg hf] at h
            exact ih _ h

/-- The general C1 fact at the failing input. -/
theorem c1_fatal_flushes_nothing_at_bigMsg :
    (⟨[bigMsg], 524288000, true⟩ : client.CaptureState).buffer ≠ []
    ∧ client.handleCaptureOutcome
        (⟨[bigMsg], 524288000, true⟩ : client.CaptureState).buffer .fatal
        = ([], some .fatalErr) :=
  c1_fatal_flushes_nothing [] [] client.initCapture [bigMsg]
    ⟨[bigMsg], 524288000, true⟩ captureLoop_bigMsg

end GhPulse
